import Mathlib

/-!
Shallow embedding of the audit-sourced temporal reconstruction engine of the
personal_library repository, and proofs about it.

The embedded code lives in two files of the repository:
  * `src/app/lib/db.ts` — `updateBook` (audit-event capture), `createAuditLog`,
    `getAuditLogs`, `getBookById`, `isBookNeverUsed`;
  * `src/app/api/analytics/never-used/route.ts` — `GET`,
    `generateWeeklySnapshots`, `wasBookNeverUsedAtTime`, `formatWeekLabel`.

Modelling conventions:
  * JavaScript numbers that can be `NaN` (the result of `parseInt`) are
    modelled as `Option Int`, with `none` standing for `NaN`; database integer
    columns are `Int`, timestamps are `Int` milliseconds since the epoch, and
    date arithmetic is carried out in UTC (the source uses the server's local
    time zone; none of the proved statements depend on the zone offset).
  * The SQL query `ORDER BY timestamp DESC LIMIT n` of `getAuditLogs` is
    modelled as a stable insertion sort on the insertion-ordered table
    followed by `take`: rows are stored in insertion order (ids are assigned
    by `AUTOINCREMENT`), and rows with equal timestamps are returned in
    insertion order.  SQL leaves the relative order of equal-key rows
    unspecified; the stable model is the canonical deterministic choice.
  * Asynchronous functions whose awaited database calls can reject are
    modelled in `Except String`; `Promise.all` over a list of such calls is
    modelled by `exceptMapM` (any rejection rejects the whole batch).
-/

/-- A JavaScript number that may be `NaN` (`none`), as produced by `parseInt`. -/
abbrev JSNum := Option Int

/-- One row of the `audit_logs` table (db.ts, `AuditLog` interface).  `id` is
the `AUTOINCREMENT` primary key; `timestamp` is the event time in epoch
milliseconds. -/
structure AuditLog where
  id : Nat
  changed_field : String
  old_value : String
  new_value : String
  changed_by : String
  timestamp : Int
  book_id : Option String
  book_title : Option String
deriving DecidableEq, Repr

/-- One row of the `books` table (db.ts, `Book` interface), restricted to the
fields the analytics code reads.  `date_added` is in epoch milliseconds. -/
structure Book where
  id : String
  title : String
  state : String
  owner : String
  current_possessor : String
  times_read : Int
  date_added : Int
deriving DecidableEq, Repr

/-- JavaScript strict equality `===` on numbers: `NaN` is equal to nothing. -/
def jsEq : JSNum → JSNum → Bool
  | some a, some b => a == b
  | _, _ => false

/-- JavaScript `>` on numbers: any comparison involving `NaN` is false. -/
def jsGt : JSNum → JSNum → Bool
  | some a, some b => b < a
  | _, _ => false

/-- Accumulate the value of a decimal digit string. -/
def digitsToNat : List Char → Nat → Nat
  | [], acc => acc
  | c :: cs, acc => digitsToNat cs (acc * 10 + (c.toNat - 48))

/-- JavaScript `parseInt(s)` restricted to base-10 input: skip leading
whitespace, read an optional sign and then the longest digit prefix; `NaN`
(`none`) when no digit is found.  The `0x` hexadecimal form of `parseInt` is
not modelled; no claim involves hexadecimal strings. -/
def jsParseInt (s : String) : JSNum :=
  let cs := s.toList.dropWhile Char.isWhitespace
  let signed : Bool × List Char :=
    match cs with
    | c :: rest => if c.toNat == 45 then (true, rest)
                   else if c.toNat == 43 then (false, rest)
                   else (false, cs)
    | [] => (false, cs)
  let digs := signed.2.takeWhile Char.isDigit
  if digs.isEmpty then none
  else
    let n : Int := Int.ofNat (digitsToNat digs 0)
    some (if signed.1 then -n else n)

/-- Insert one row into a list already sorted by descending `timestamp`,
placing it before every row whose timestamp is not larger: together with
`sortByTimestampDesc` this is a stable model of `ORDER BY timestamp DESC`. -/
def insertByTimestampDesc (a : AuditLog) : List AuditLog → List AuditLog
  | [] => [a]
  | b :: bs =>
    if a.timestamp < b.timestamp then b :: insertByTimestampDesc a bs
    else a :: b :: bs

/-- Stable sort of audit rows by descending `timestamp`; rows with equal
timestamps keep their relative (insertion) order. -/
def sortByTimestampDesc : List AuditLog → List AuditLog
  | [] => []
  | a :: as => insertByTimestampDesc a (sortByTimestampDesc as)

/-- `getAuditLogs` (db.ts lines 659–711): optional `changed_field` filter (the
value `"all"` disables it), optional `book_id` filter, `ORDER BY timestamp
DESC`, truncation to `limit` (`filters?.limit || 50`, so an absent — or zero —
limit falls back to 50).  The table argument is the stored `audit_logs` rows
in insertion order. -/
def getAuditLogs (table : List AuditLog) (eventType : Option String)
    (bookId : Option String) (limit : Option Nat) : List AuditLog :=
  let lim := match limit with
    | some n => if n == 0 then 50 else n
    | none => 50
  let t1 := match eventType with
    | some v => if v == "all" then table
                else table.filter (fun log => log.changed_field == v)
    | none => table
  let t2 := match bookId with
    | some v => t1.filter (fun log => log.book_id == some v)
    | none => t1
  (sortByTimestampDesc t2).take lim

/-- The per-field backward-replay step shared by the three reconstruction
blocks of `wasBookNeverUsedAtTime` (route.ts lines 136–142, 150–155, 158–163):
filter the after-snapshot logs to one field, reverse (the logs arrive newest
first, so reversal yields oldest first) and read `old_value` of the first —
the loop bodies `break` after one iteration — falling back to the current
value when there is no such log. -/
def reconField {α : Type} (current : α) (dec : String → α) (field : String)
    (logsAfterSnapshot : List AuditLog) : α :=
  match ((logsAfterSnapshot.filter
      (fun log => log.changed_field == field)).reverse).head? with
  | some log => dec log.old_value
  | none => current

/-- `wasBookNeverUsedAtTime` (route.ts lines 121–167) given the already
fetched audit rows for the book (`allLogs`, the awaited result of
`getAuditLogs({bookId: book.id, limit: 1000})`, newest first): reconstruct
`times_read`, `current_possessor` and `owner` at `snapshotDate` by one
backward-replay step each and evaluate the "never used" rule. -/
def wasBookNeverUsedAtTime (book : Book) (allLogs : List AuditLog)
    (snapshotDate : Int) : Bool :=
  let logsAfterSnapshot := allLogs.filter (fun log => snapshotDate < log.timestamp)
  let timesReadAtSnapshot : JSNum :=
    reconField (some book.times_read) jsParseInt "times_read" logsAfterSnapshot
  if jsGt timesReadAtSnapshot (some 0) then false
  else
    let possessorAtSnapshot :=
      reconField book.current_possessor id "current_possessor" logsAfterSnapshot
    let ownerAtSnapshot := reconField book.owner id "owner" logsAfterSnapshot
    possessorAtSnapshot == ownerAtSnapshot

/-- End-to-end reconstruction of one field of one book at one instant:
`reconField` applied to the audit rows the route actually fetches
(`getAuditLogs` with the book-id filter and limit 1000) restricted to those
strictly after `asOf`. -/
def reconAt {α : Type} (table : List AuditLog) (bookId : String) (asOf : Int)
    (current : α) (dec : String → α) (field : String) : α :=
  reconField current dec field
    ((getAuditLogs table none (some bookId) (some 1000)).filter
      (fun log => asOf < log.timestamp))

/-- The after-`asOf` audit events of one book for one field, as the route
computes them (fetch with limit 1000, newest first, then the strict
`timestamp > asOf` filter, then the field filter). -/
def fieldAfterSet (table : List AuditLog) (bookId field : String)
    (asOf : Int) : List AuditLog :=
  ((getAuditLogs table none (some bookId) (some 1000)).filter
      (fun log => asOf < log.timestamp)).filter
    (fun log => log.changed_field == field)

/-- The "never used" rule over current values as a pure function of the value
tuple (db.ts line 727: `times_read === 0 && current_possessor === owner`). -/
def neverUsedNowPred (timesRead : JSNum) (possessor owner : String) : Bool :=
  jsEq timesRead (some 0) && possessor == owner

/-- The "never used" rule as evaluated over reconstructed values inside
`wasBookNeverUsedAtTime` (route.ts lines 145–166): `if (timesRead > 0) return
false` and otherwise compare possessor with owner. -/
def neverUsedSnapshotPred (timesRead : JSNum) (possessor owner : String) : Bool :=
  if jsGt timesRead (some 0) then false else possessor == owner

/-- `getBookById` (db.ts): point lookup by id. -/
def getBookById (books : List Book) (bookId : String) : Option Book :=
  books.find? (fun b => b.id == bookId)

/-- `isBookNeverUsed` (db.ts lines 719–732): a missing book yields `false`;
otherwise the current-value "never used" rule. -/
def isBookNeverUsed (books : List Book) (bookId : String) : Bool :=
  match getBookById books bookId with
  | none => false
  | some book => book.times_read == 0 && book.current_possessor == book.owner

/-- Milliseconds in one day. -/
def dayMs : Int := 86400000

/-- The checkpoint instant of week `i` (route.ts lines 83–85): `i * 7` days
before `now`, with the time set to 23:59:59.999 — modelled as the last
millisecond of the enclosing UTC day. -/
def weekEndDate (now : Int) (i : Nat) : Int :=
  ((now - (i : Int) * 7 * dayMs).fdiv dayMs) * dayMs + (dayMs - 1)

/-- Civil date `(year, month, day)` of a day count since 1970-01-01 (proleptic
Gregorian calendar). -/
def civilFromDays (z : Int) : Int × Nat × Nat :=
  let z := z + 719468
  let era := z.fdiv 146097
  let doe := (z - era * 146097).toNat
  let yoe := (doe - doe / 1460 + doe / 36524 - doe / 146096) / 365
  let doy := doe - (365 * yoe + yoe / 4 - yoe / 100)
  let mp := (5 * doy + 2) / 153
  let d := doy - (153 * mp + 2) / 5 + 1
  let m := if mp < 10 then mp + 3 else mp - 9
  (if m ≤ 2 then (yoe : Int) + era * 400 + 1 else (yoe : Int) + era * 400, m, d)

/-- The month-name table of `formatWeekLabel` (route.ts line 173). -/
def monthNames : List String :=
  ["Jan", "Feb", "Mar", "Apr", "May", "Jun",
   "Jul", "Aug", "Sep", "Oct", "Nov", "Dec"]

/-- `formatWeekLabel` (route.ts lines 172–175): `"MMM DD"`. -/
def formatWeekLabel (t : Int) : String :=
  let c := civilFromDays (t.fdiv dayMs)
  (monthNames.getD (c.2.1 - 1) "") ++ " " ++ toString c.2.2

/-- One element of the weekly time series (route.ts, `WeeklySnapshot`
interface); `weekEndDate` is kept as epoch milliseconds rather than an ISO
string. -/
structure WeeklySnapshot where
  weekLabel : String
  weekEndDate : Int
  neverUsedCount : Nat
  totalBooks : Nat
  percentage : Int
deriving DecidableEq, Repr

/-- `Math.round((num / total) * 100)` guarded by `total > 0` (route.ts lines
40–42 and 100–102).  JavaScript doubles are modelled as exact rationals;
`Math.round` rounds half away from zero upward, which on the non-negative
inputs occurring here is Mathlib's `round` (`⌊x + 1/2⌋`). -/
def pctOf (num total : Nat) : Int :=
  if 0 < total then round ((num : ℚ) / (total : ℚ) * 100) else 0

/-- The audit-row fetch used per book by the trend computation: the awaited
`getAuditLogs({bookId, limit: 1000})` call, which can reject (Durable Store
failure). -/
abbrev AuditFetch := String → Except String (List AuditLog)

/-- A fetch that always succeeds and answers from the given stored table. -/
def okFetch (table : List AuditLog) : AuditFetch :=
  fun bookId => .ok (getAuditLogs table none (some bookId) (some 1000))

/-- Sequencing of fallible per-element computations; models `Promise.all`
over a mapped list (any rejection rejects the whole batch) and sequential
awaited loops. -/
def exceptMapM {α β : Type} (f : α → Except String β) :
    List α → Except String (List β)
  | [] => .ok []
  | a :: as =>
    match f a with
    | .error e => .error e
    | .ok b =>
      match exceptMapM f as with
      | .error e => .error e
      | .ok bs => .ok (b :: bs)

/-- `wasBookNeverUsedAtTime` with its internal awaited `getAuditLogs` call
made explicit as a fallible fetch. -/
def wasBookNeverUsedAtTimeE (fetch : AuditFetch) (book : Book)
    (snapshotDate : Int) : Except String Bool :=
  match fetch book.id with
  | .error e => .error e
  | .ok allLogs => .ok (wasBookNeverUsedAtTime book allLogs snapshotDate)

/-- The body of one iteration of the weekly loop of `generateWeeklySnapshots`
(route.ts lines 82–111): the checkpoint instant, the eligible set
(`date_added <= weekEndDate`), the `Promise.all` of per-book reconstructions,
the counts and the percentage. -/
def snapshotFor (fetch : AuditFetch) (books : List Book) (now : Int)
    (i : Nat) : Except String WeeklySnapshot :=
  let wed := weekEndDate now i
  let existingBooks := books.filter (fun b => b.date_added ≤ wed)
  match exceptMapM (fun b => wasBookNeverUsedAtTimeE fetch b wed) existingBooks with
  | .error e => .error e
  | .ok neverUsedFlags =>
    let neverUsedCount := (neverUsedFlags.filter (fun f => f)).length
    .ok { weekLabel := formatWeekLabel wed
          weekEndDate := wed
          neverUsedCount := neverUsedCount
          totalBooks := existingBooks.length
          percentage := pctOf neverUsedCount existingBooks.length }

/-- `generateWeeklySnapshots` (route.ts lines 77–114): one snapshot per week
`i = 0 .. weeks-1`, `unshift`-ed so the result is oldest first. -/
def generateWeeklySnapshots (fetch : AuditFetch) (books : List Book)
    (weeks : Nat) (now : Int) : Except String (List WeeklySnapshot) :=
  match exceptMapM (snapshotFor fetch books now) (List.range weeks) with
  | .error e => .error e
  | .ok snapshots => .ok snapshots.reverse

/-- The `current` part of the analytics response (route.ts lines 49–53). -/
structure CurrentStats where
  count : Nat
  total : Nat
  percentage : Int
deriving DecidableEq, Repr

/-- The successful response body of `GET /api/analytics/never-used`. -/
structure NeverUsedResponse where
  current : CurrentStats
  weekly : List WeeklySnapshot
deriving DecidableEq, Repr

/-- The owner filter applied by `GET` (route.ts lines 29–31): the absent or
`"all"` filter keeps every book. -/
def filterBooksByUser (books : List Book) (userFilter : Option String) :
    List Book :=
  match userFilter with
  | some u => if u == "all" then books else books.filter (fun b => b.owner == u)
  | none => books

/-- The `GET` handler of `/api/analytics/never-used` (route.ts lines 20–63):
filter by owner, compute the current aggregate with `isBookNeverUsed`, then
the 12-week trend; any rejection inside is caught and turned into an error
response, modelled as `Except.error`. -/
def analyticsNeverUsedGET (fetch : AuditFetch) (allBooks : List Book)
    (userFilter : Option String) (now : Int) :
    Except String NeverUsedResponse :=
  let books := filterBooksByUser allBooks userFilter
  let neverUsedFlags := books.map (fun b => isBookNeverUsed allBooks b.id)
  let currentNeverUsedCount := (neverUsedFlags.filter (fun f => f)).length
  let currentTotal := books.length
  let currentPercentage := pctOf currentNeverUsedCount currentTotal
  match generateWeeklySnapshots fetch books 12 now with
  | .error e => .error e
  | .ok weeklyData =>
    .ok { current := { count := currentNeverUsedCount
                       total := currentTotal
                       percentage := currentPercentage }
          weekly := weeklyData }

/-- A partial update to a book as accepted by `updateBook`; `none` is an
absent (`undefined`) field.  `title` stands in for the untracked fields. -/
structure BookUpdate where
  title : Option String
  state : Option String
  owner : Option String
  current_possessor : Option String
  times_read : Option Int
deriving DecidableEq, Repr

/-- The payload `createAuditLog` receives from `updateBook` (db.ts lines
359–366): everything except the store-assigned `id` and `timestamp`. -/
structure NewAuditLog where
  changed_field : String
  old_value : String
  new_value : String
  changed_by : String
  book_id : Option String
  book_title : Option String
deriving DecidableEq, Repr

/-- The merged row after `updateBook` applies a partial update (db.ts lines
374–378: `{ ...existingBook, ...updates }`). -/
def applyBookUpdate (book : Book) (u : BookUpdate) : Book :=
  { book with
    title := u.title.getD book.title
    state := u.state.getD book.state
    owner := u.owner.getD book.owner
    current_possessor := u.current_possessor.getD book.current_possessor
    times_read := u.times_read.getD book.times_read }

/-- One iteration of the tracked-field audit loop of `updateBook` (db.ts
lines 403–416): no event when the field is absent from the update or when
`String(oldValue) === String(newValue)`; otherwise one event attributed to
`"system"`. -/
def fieldAuditLogs (field oldValue : String) (newValue : Option String)
    (bookId bookTitle : String) : List NewAuditLog :=
  match newValue with
  | none => []
  | some nv =>
    if oldValue == nv then []
    else
      [{ changed_field := field
         old_value := oldValue
         new_value := nv
         changed_by := "system"
         book_id := some bookId
         book_title := some bookTitle }]

/-- The audit events `updateBook` appends for one update (db.ts lines
330 and 402–416): the loop over `trackedFields = ['state', 'owner',
'current_possessor', 'times_read']`, each field compared by the string form
of its old and new values, with the subject fields taken from the updated
row. -/
def updateBookAuditLogs (existingBook : Book) (updates : BookUpdate) :
    List NewAuditLog :=
  let updated := applyBookUpdate existingBook updates
  fieldAuditLogs "state" existingBook.state updates.state
      updated.id updated.title ++
  fieldAuditLogs "owner" existingBook.owner updates.owner
      updated.id updated.title ++
  fieldAuditLogs "current_possessor" existingBook.current_possessor
      updates.current_possessor updated.id updated.title ++
  fieldAuditLogs "times_read" (toString existingBook.times_read)
      (updates.times_read.map toString) updated.id updated.title

/-- Sortedness by descending timestamp (with ties allowed). -/
abbrev SortedDesc (l : List AuditLog) : Prop :=
  l.Pairwise (fun p q => q.timestamp ≤ p.timestamp)

lemma insertByTimestampDesc_perm (a : AuditLog) (l : List AuditLog) :
    (insertByTimestampDesc a l).Perm (a :: l) := by
  induction l with
  | nil => simp [insertByTimestampDesc]
  | cons b bs ih =>
    simp only [insertByTimestampDesc]
    split
    · exact (ih.cons b).trans (List.Perm.swap a b bs)
    · exact List.Perm.refl _

lemma sortByTimestampDesc_perm (l : List AuditLog) :
    (sortByTimestampDesc l).Perm l := by
  induction l with
  | nil => exact List.Perm.refl _
  | cons a as ih =>
    exact (insertByTimestampDesc_perm a (sortByTimestampDesc as)).trans (ih.cons a)

lemma sortByTimestampDesc_length (l : List AuditLog) :
    (sortByTimestampDesc l).length = l.length :=
  (sortByTimestampDesc_perm l).length_eq

lemma insertByTimestampDesc_sorted {a : AuditLog} {l : List AuditLog}
    (h : SortedDesc l) : SortedDesc (insertByTimestampDesc a l) := by
  induction l with
  | nil => simp [insertByTimestampDesc, SortedDesc]
  | cons b bs ih =>
    rw [SortedDesc, List.pairwise_cons] at h
    obtain ⟨hb, hbs⟩ := h
    simp only [insertByTimestampDesc]
    split
    · rename_i hab
      rw [SortedDesc, List.pairwise_cons]
      constructor
      · intro x hx
        rcases List.mem_cons.mp ((insertByTimestampDesc_perm a bs).mem_iff.mp hx)
            with hxa | hxbs
        · rw [hxa]; exact le_of_lt hab
        · exact hb x hxbs
      · exact ih hbs
    · rename_i hab
      rw [SortedDesc, List.pairwise_cons]
      refine ⟨?_, ?_⟩
      · intro x hx
        rcases List.mem_cons.mp hx with hxb | hxbs
        · rw [hxb]; exact le_of_not_lt hab
        · exact le_trans (hb x hxbs) (le_of_not_lt hab)
      · rw [List.pairwise_cons]; exact ⟨hb, hbs⟩

lemma sortByTimestampDesc_sorted (l : List AuditLog) :
    SortedDesc (sortByTimestampDesc l) := by
  induction l with
  | nil => simp [sortByTimestampDesc, SortedDesc]
  | cons a as ih => exact insertByTimestampDesc_sorted ih

lemma insertByTimestampDesc_filter_timeEq (a : AuditLog) (l : List AuditLog) :
    (insertByTimestampDesc a l).filter (fun x => x.timestamp == a.timestamp) =
      a :: l.filter (fun x => x.timestamp == a.timestamp) := by
  induction l with
  | nil => simp [insertByTimestampDesc]
  | cons b bs ih =>
    simp only [insertByTimestampDesc]
    split
    · rename_i hab
      have hb : (b.timestamp == a.timestamp) = false := by
        simp only [beq_eq_false_iff_ne, ne_eq]
        exact fun hx => absurd hx.le (not_le.mpr hab)
      simp [List.filter_cons, hb, ih]
    · simp [List.filter_cons]

lemma insertByTimestampDesc_filter_timeNe (a : AuditLog) (l : List AuditLog)
    (m : Int) (hm : m ≠ a.timestamp) :
    (insertByTimestampDesc a l).filter (fun x => x.timestamp == m) =
      l.filter (fun x => x.timestamp == m) := by
  have ha : (a.timestamp == m) = false := by
    simp only [beq_eq_false_iff_ne, ne_eq]
    exact fun hx => hm hx.symm
  induction l with
  | nil => simp [insertByTimestampDesc, ha]
  | cons b bs ih =>
    simp only [insertByTimestampDesc]
    split
    · simp [List.filter_cons, ih]
    · simp [List.filter_cons, ha]

lemma sortByTimestampDesc_filter_time (l : List AuditLog) (m : Int) :
    (sortByTimestampDesc l).filter (fun x => x.timestamp == m) =
      l.filter (fun x => x.timestamp == m) := by
  induction l with
  | nil => rfl
  | cons a as ih =>
    simp only [sortByTimestampDesc]
    by_cases hm : m = a.timestamp
    · subst hm
      rw [insertByTimestampDesc_filter_timeEq, ih, List.filter_cons]
      simp
    · rw [insertByTimestampDesc_filter_timeNe _ _ _ hm, ih, List.filter_cons]
      have ha : (a.timestamp == m) = false := by
        simp only [beq_eq_false_iff_ne, ne_eq]
        exact fun hx => hm hx.symm
      simp [ha]

lemma getLast?_filter {α : Type} {p : α → Bool} :
    ∀ {l : List α} {a : α}, l.getLast? = some a → p a = true →
      (l.filter p).getLast? = some a := by
  intro l
  induction l with
  | nil => intro a h _; simp at h
  | cons x xs ih =>
    intro a h hp
    cases xs with
    | nil =>
      simp only [List.getLast?_singleton, Option.some.injEq] at h
      subst h
      simp [List.filter_cons, hp]
    | cons y ys =>
      rw [List.getLast?_cons_cons] at h
      have hrec := ih h hp
      obtain ⟨c, L, hcl⟩ : ∃ c L, (y :: ys).filter p = c :: L := by
        cases hh : (y :: ys).filter p with
        | nil => rw [hh] at hrec; simp at hrec
        | cons c L => exact ⟨c, L, rfl⟩
      rw [List.filter_cons]
      split
      · rw [hcl, List.getLast?_cons_cons, ← hcl]; exact hrec
      · exact hrec

lemma sortedDesc_getLast_min :
    ∀ {l : List AuditLog} {a : AuditLog}, SortedDesc l → l.getLast? = some a →
      ∀ x ∈ l, a.timestamp ≤ x.timestamp := by
  intro l
  induction l with
  | nil => intro a _ h; simp at h
  | cons b bs ih =>
    intro a hs h x hx
    rw [SortedDesc, List.pairwise_cons] at hs
    obtain ⟨hb, hbs⟩ := hs
    cases bs with
    | nil =>
      simp only [List.getLast?_singleton, Option.some.injEq] at h
      subst h
      simp only [List.mem_singleton] at hx
      rw [hx]
    | cons c cs =>
      rw [List.getLast?_cons_cons] at h
      rcases List.mem_cons.mp hx with hxb | hxcs
      · have ha : a ∈ c :: cs := List.mem_of_mem_getLast? h
        rw [hxb]
        exact hb a ha
      · exact ih hbs h x hxcs

lemma pairwiseIdLt_getLast_max :
    ∀ {l : List AuditLog} {a : AuditLog},
      l.Pairwise (fun p q => p.id < q.id) → l.getLast? = some a →
      ∀ x ∈ l, x = a ∨ x.id < a.id := by
  intro l
  induction l with
  | nil => intro a _ h; simp at h
  | cons b bs ih =>
    intro a hs h x hx
    rw [List.pairwise_cons] at hs
    obtain ⟨hb, hbs⟩ := hs
    cases bs with
    | nil =>
      simp only [List.getLast?_singleton, Option.some.injEq] at h
      subst h
      simp only [List.mem_singleton] at hx
      exact Or.inl hx
    | cons c cs =>
      rw [List.getLast?_cons_cons] at h
      rcases List.mem_cons.mp hx with hxb | hxcs
      · have ha : a ∈ c :: cs := List.mem_of_mem_getLast? h
        rw [hxb]
        exact Or.inr (hb a ha)
      · exact ih hbs h x hxcs

lemma exceptMapM_ok_map {α β : Type} (g : α → β) (l : List α) :
    exceptMapM (fun a => .ok (g a)) l = .ok (l.map g) := by
  induction l with
  | nil => rfl
  | cons a as ih => simp [exceptMapM, ih]

lemma exceptMapM_length {α β : Type} {f : α → Except String β} :
    ∀ {l : List α} {bs : List β}, exceptMapM f l = .ok bs →
      bs.length = l.length := by
  intro l
  induction l with
  | nil => intro bs h; simp [exceptMapM] at h; simp [← h]
  | cons a as ih =>
    intro bs h
    simp only [exceptMapM] at h
    cases hfa : f a with
    | error e => rw [hfa] at h; exact absurd h (by simp)
    | ok b =>
      rw [hfa] at h
      cases hrest : exceptMapM f as with
      | error e => rw [hrest] at h; exact absurd h (by simp)
      | ok cs =>
        rw [hrest] at h
        simp only [Except.ok.injEq] at h
        rw [← h]
        simp [ih hrest]

lemma exceptMapM_ok_forall {α β : Type} {f : α → Except String β} :
    ∀ {l : List α} {bs : List β}, exceptMapM f l = .ok bs →
      ∀ a ∈ l, ∃ b, f a = .ok b := by
  intro l
  induction l with
  | nil => intro bs _ a ha; simp at ha
  | cons x xs ih =>
    intro bs h a ha
    simp only [exceptMapM] at h
    cases hfx : f x with
    | error e => rw [hfx] at h; exact absurd h (by simp)
    | ok b =>
      rw [hfx] at h
      cases hrest : exceptMapM f xs with
      | error e => rw [hrest] at h; exact absurd h (by simp)
      | ok cs =>
        rcases List.mem_cons.mp ha with hax | haxs
        · exact ⟨b, hax ▸ hfx⟩
        · exact ih hrest a haxs

lemma exceptMapM_ok_mem {α β : Type} {f : α → Except String β} :
    ∀ {l : List α} {bs : List β}, exceptMapM f l = .ok bs →
      ∀ b ∈ bs, ∃ a ∈ l, f a = .ok b := by
  intro l
  induction l with
  | nil =>
    intro bs h b hb
    simp only [exceptMapM, Except.ok.injEq] at h
    rw [← h] at hb
    simp at hb
  | cons x xs ih =>
    intro bs h b hb
    simp only [exceptMapM] at h
    cases hfx : f x with
    | error e => rw [hfx] at h; exact absurd h (by simp)
    | ok c =>
      rw [hfx] at h
      cases hrest : exceptMapM f xs with
      | error e => rw [hrest] at h; exact absurd h (by simp)
      | ok cs =>
        rw [hrest] at h
        simp only [Except.ok.injEq] at h
        rw [← h] at hb
        rcases List.mem_cons.mp hb with hbc | hbcs
        · exact ⟨x, List.mem_cons_self x xs, hbc ▸ hfx⟩
        · obtain ⟨a, ha, hfa⟩ := ih hrest b hbcs
          exact ⟨a, List.mem_cons_of_mem x ha, hfa⟩

lemma pctOf_nonneg (n t : Nat) : 0 ≤ pctOf n t := by
  unfold pctOf
  split
  · rw [round_eq, Int.le_floor]
    push_cast
    positivity
  · exact le_refl 0

lemma pctOf_le_100 {n t : Nat} (h : n ≤ t) : pctOf n t ≤ 100 := by
  unfold pctOf
  split
  · rename_i ht
    rw [round_eq]
    have htq : (0 : ℚ) < (t : ℚ) := by exact_mod_cast ht
    have h1 : ((n : ℚ)) / (t : ℚ) ≤ 1 := by
      rw [div_le_one htq]
      exact_mod_cast h
    have h2 : ((n : ℚ)) / (t : ℚ) * 100 + 1 / 2 < 101 := by nlinarith
    have h3 : (⌊((n : ℚ)) / (t : ℚ) * 100 + 1 / 2⌋ : ℤ) < 101 :=
      Int.floor_lt.mpr (by exact_mod_cast h2)
    omega
  · norm_num

lemma pctOf_pos_eq {n t : Nat} (h : 0 < t) :
    pctOf n t = round ((n : ℚ) / (t : ℚ) * 100) := by
  simp [pctOf, h]

lemma pctOf_zero_total (n : Nat) : pctOf n 0 = 0 := rfl

/-- The audit rows of one book in stored (insertion) order: the claim-side
description of what `getAuditLogs({bookId})` ranges over. -/
def bookLogs (table : List AuditLog) (bookId : String) : List AuditLog :=
  table.filter (fun log => log.book_id == some bookId)

/-- The claim-side `afterSet` for one field of one book at one instant: the
stored rows of the book for that field with `timestamp > asOf`, in insertion
order. -/
def bookFieldLogsAfter (table : List AuditLog) (bookId field : String)
    (asOf : Int) : List AuditLog :=
  ((bookLogs table bookId).filter (fun log => asOf < log.timestamp)).filter
    (fun log => log.changed_field == field)

lemma getAuditLogs_book_eq (table : List AuditLog) (bookId : String)
    (hlen : (bookLogs table bookId).length ≤ 1000) :
    getAuditLogs table none (some bookId) (some 1000) =
      sortByTimestampDesc (bookLogs table bookId) := by
  unfold getAuditLogs bookLogs
  simp only
  rw [List.take_of_length_le]
  rw [sortByTimestampDesc_length]
  exact hlen

lemma reconAt_eq_getLast {α : Type} (table : List AuditLog) (bookId : String)
    (asOf : Int) (current : α) (dec : String → α) (field : String) :
    reconAt table bookId asOf current dec field =
      match (fieldAfterSet table bookId field asOf).getLast? with
      | some log => dec log.old_value
      | none => current := by
  unfold reconAt reconField fieldAfterSet
  rw [List.head?_reverse]

lemma fieldAfterSet_sorted (table : List AuditLog) (bookId field : String)
    (asOf : Int) : SortedDesc (fieldAfterSet table bookId field asOf) := by
  unfold fieldAfterSet getAuditLogs
  simp only
  refine List.Pairwise.sublist (List.filter_sublist _) ?_
  refine List.Pairwise.sublist (List.filter_sublist _) ?_
  refine List.Pairwise.sublist (List.take_sublist _ _) ?_
  exact sortByTimestampDesc_sorted _

lemma fieldAfterSet_perm (table : List AuditLog) (bookId field : String)
    (asOf : Int) (hlen : (bookLogs table bookId).length ≤ 1000) :
    (fieldAfterSet table bookId field asOf).Perm
      (bookFieldLogsAfter table bookId field asOf) := by
  unfold fieldAfterSet bookFieldLogsAfter
  rw [getAuditLogs_book_eq table bookId hlen]
  exact ((sortByTimestampDesc_perm _).filter _).filter _

lemma reconAt_of_strict_min {α : Type} (table : List AuditLog)
    (bookId : String) (asOf : Int) (current : α) (dec : String → α)
    (field : String) {e : AuditLog}
    (he : e ∈ fieldAfterSet table bookId field asOf)
    (hmin : ∀ x ∈ fieldAfterSet table bookId field asOf, x ≠ e →
      e.timestamp < x.timestamp) :
    reconAt table bookId asOf current dec field = dec e.old_value := by
  rw [reconAt_eq_getLast]
  cases hlast : (fieldAfterSet table bookId field asOf).getLast? with
  | none =>
    rw [List.getLast?_eq_none_iff] at hlast
    rw [hlast] at he
    simp at he
  | some l =>
    have hlmem : l ∈ fieldAfterSet table bookId field asOf :=
      List.mem_of_mem_getLast? hlast
    have hlts : l.timestamp ≤ e.timestamp :=
      sortedDesc_getLast_min (fieldAfterSet_sorted table bookId field asOf)
        hlast e he
    have hle : l = e := by
      by_contra hne
      exact absurd hlts (not_le.mpr (hmin l hlmem hne))
    rw [hle]

lemma filter_chain_collapse (A B T : AuditLog → Bool) (S : List AuditLog) :
    ((S.filter A).filter B).filter T =
      (S.filter T).filter (fun a => A a && B a) := by
  rw [List.filter_filter, List.filter_filter, List.filter_filter]
  refine List.filter_congr ?_
  intro x _
  cases A x <;> cases B x <;> cases T x <;> simp

lemma fieldAfterSet_filter_time (table : List AuditLog)
    (bookId field : String) (asOf : Int) (m : Int)
    (hlen : (bookLogs table bookId).length ≤ 1000) :
    (fieldAfterSet table bookId field asOf).filter
        (fun x => x.timestamp == m) =
      (bookFieldLogsAfter table bookId field asOf).filter
        (fun x => x.timestamp == m) := by
  unfold fieldAfterSet bookFieldLogsAfter
  rw [getAuditLogs_book_eq table bookId hlen]
  rw [filter_chain_collapse, filter_chain_collapse,
    sortByTimestampDesc_filter_time]

/-- C4 (amended): among the members of `afterSet` with the smallest
`occurredAt`, the event inserted last — by id monotonicity the one with the
largest `id` — supplies the reconstructed `oldValue`; the code applies no id
tie-break of its own, this is the stable order in which the store returns
equal-timestamp rows. -/
theorem tie_break_stable_order {α : Type} (table : List AuditLog)
    (bookId : String) (asOf : Int) (current : α) (dec : String → α)
    (field : String) {e : AuditLog}
    (hmono : table.Pairwise (fun p q => p.id < q.id))
    (hlen : (bookLogs table bookId).length ≤ 1000)
    (he : e ∈ bookFieldLogsAfter table bookId field asOf)
    (hmin : ∀ x ∈ bookFieldLogsAfter table bookId field asOf,
      e.timestamp ≤ x.timestamp)
    (hmax : ∀ x ∈ bookFieldLogsAfter table bookId field asOf,
      x.timestamp = e.timestamp → x = e ∨ x.id < e.id) :
    reconAt table bookId asOf current dec field = dec e.old_value := by
  have hperm := fieldAfterSet_perm table bookId field asOf hlen
  have hefs : e ∈ fieldAfterSet table bookId field asOf :=
    hperm.mem_iff.mpr he
  rw [reconAt_eq_getLast]
  cases hlast : (fieldAfterSet table bookId field asOf).getLast? with
  | none =>
    rw [List.getLast?_eq_none_iff] at hlast
    rw [hlast] at hefs
    simp at hefs
  | some l =>
    have hlmem : l ∈ fieldAfterSet table bookId field asOf :=
      List.mem_of_mem_getLast? hlast
    have hlts_le : l.timestamp ≤ e.timestamp :=
      sortedDesc_getLast_min (fieldAfterSet_sorted table bookId field asOf)
        hlast e hefs
    have hlts_ge : e.timestamp ≤ l.timestamp :=
      hmin l (hperm.mem_iff.mp hlmem)
    have hts : l.timestamp = e.timestamp := le_antisymm hlts_le hlts_ge
    have hBlast : ((fieldAfterSet table bookId field asOf).filter
        (fun x => x.timestamp == e.timestamp)).getLast? = some l :=
      getLast?_filter hlast (by simp [hts])
    rw [fieldAfterSet_filter_time table bookId field asOf e.timestamp hlen]
      at hBlast
    have hBpair : ((bookFieldLogsAfter table bookId field asOf).filter
        (fun x => x.timestamp == e.timestamp)).Pairwise
        (fun p q => p.id < q.id) := by
      unfold bookFieldLogsAfter bookLogs
      refine List.Pairwise.sublist (List.filter_sublist _) ?_
      refine List.Pairwise.sublist (List.filter_sublist _) ?_
      refine List.Pairwise.sublist (List.filter_sublist _) ?_
      exact List.Pairwise.sublist (List.filter_sublist _) hmono
    have heB : e ∈ (bookFieldLogsAfter table bookId field asOf).filter
        (fun x => x.timestamp == e.timestamp) :=
      List.mem_filter.mpr ⟨he, by simp⟩
    have hlB : l ∈ (bookFieldLogsAfter table bookId field asOf).filter
        (fun x => x.timestamp == e.timestamp) :=
      List.mem_of_mem_getLast? hBlast
    have h1 : e = l ∨ e.id < l.id :=
      pairwiseIdLt_getLast_max hBpair hBlast e heB
    have h2 : l = e ∨ l.id < e.id :=
      hmax l (List.mem_filter.mp hlB).1 hts
    have hle : l = e := by
      rcases h1 with h1 | h1
      · exact h1.symm
      · rcases h2 with h2 | h2
        · exact h2
        · exact absurd h1 (not_lt.mpr (le_of_lt h2))
    rw [hle]

/-- C1: Per-field backward-replay postcondition.  For any book whose stored
history fits in the fetch limit of 1000: when no stored audit event of the
book for the field has `occurredAt > asOf`, the reconstructed value is the
current value; and when `afterSet` is non-empty and has a unique earliest
member, the reconstructed value is that member's `oldValue` — so no other
member of `afterSet` and no event at or before `asOf` influences the
result. -/
theorem backward_replay_postcondition {α : Type} (table : List AuditLog)
    (bookId : String) (asOf : Int) (current : α) (dec : String → α)
    (field : String)
    (hlen : (bookLogs table bookId).length ≤ 1000) :
    (bookFieldLogsAfter table bookId field asOf = [] →
      reconAt table bookId asOf current dec field = current) ∧
    (∀ e ∈ bookFieldLogsAfter table bookId field asOf,
      (∀ x ∈ bookFieldLogsAfter table bookId field asOf, x ≠ e →
        e.timestamp < x.timestamp) →
      reconAt table bookId asOf current dec field = dec e.old_value) := by
  have hperm := fieldAfterSet_perm table bookId field asOf hlen
  constructor
  · intro hnil
    have hfs : fieldAfterSet table bookId field asOf = [] := by
      have hp := hperm
      rw [hnil] at hp
      exact hp.eq_nil
    rw [reconAt_eq_getLast, hfs]
    rfl
  · intro e he hmin
    refine reconAt_of_strict_min table bookId asOf current dec field
      (hperm.mem_iff.mpr he) ?_
    intro x hx hxe
    exact hmin x (hperm.mem_iff.mp hx) hxe

/-- A one-event history used to witness the backward-replay postcondition. -/
def replayLog : AuditLog :=
  { id := 1, changed_field := "times_read", old_value := "2",
    new_value := "3", changed_by := "system", timestamp := 100,
    book_id := some "b", book_title := some "Book" }

/-- Witness for C1: with the single event `replayLog` after `asOf = 50`, the
reconstructed `times_read` is `parseInt "2"`. -/
theorem backward_replay_postcondition_witness :
    reconAt [replayLog] "b" 50 (some (3 : Int)) jsParseInt "times_read" =
      jsParseInt "2" :=
  (backward_replay_postcondition (α := JSNum) [replayLog] "b" 50
      (some (3 : Int)) jsParseInt "times_read" (by decide)).2
    replayLog (by decide) (by decide)

/-- The earlier-inserted member of an equal-timestamp pair of audit events. -/
def tieLogFirst : AuditLog :=
  { id := 1, changed_field := "times_read", old_value := "1",
    new_value := "2", changed_by := "system", timestamp := 100,
    book_id := some "b", book_title := some "Book" }

/-- The later-inserted member of an equal-timestamp pair of audit events. -/
def tieLogSecond : AuditLog :=
  { id := 2, changed_field := "times_read", old_value := "0",
    new_value := "1", changed_by := "system", timestamp := 100,
    book_id := some "b", book_title := some "Book" }

/-- C4 is false as stated: both events share `occurredAt` and lie after
`asOf = 50`; the smaller-id member is `tieLogFirst`, yet the reconstructed
value is the `oldValue` of `tieLogSecond`, which differs from
`tieLogFirst`'s. -/
theorem tie_break_smallest_id_counterexample :
    tieLogFirst.timestamp = tieLogSecond.timestamp ∧
    tieLogFirst.id < tieLogSecond.id ∧
    tieLogFirst ∈
      bookFieldLogsAfter [tieLogFirst, tieLogSecond] "b" "times_read" 50 ∧
    tieLogSecond ∈
      bookFieldLogsAfter [tieLogFirst, tieLogSecond] "b" "times_read" 50 ∧
    reconAt [tieLogFirst, tieLogSecond] "b" 50 (some (5 : Int)) jsParseInt
      "times_read" = jsParseInt tieLogSecond.old_value ∧
    jsParseInt tieLogSecond.old_value ≠ jsParseInt tieLogFirst.old_value := by
  decide

/-- Witness for the amended C4: in the concrete equal-timestamp pair the
reconstructed value is the `oldValue` of the larger-id event. -/
theorem tie_break_stable_order_witness :
    reconAt [tieLogFirst, tieLogSecond] "b" 50 (some (5 : Int)) jsParseInt
      "times_read" = jsParseInt "0" :=
  tie_break_stable_order (α := JSNum) [tieLogFirst, tieLogSecond] "b" 50
    (some (5 : Int)) jsParseInt "times_read" (e := tieLogSecond)
    (by decide) (by decide) (by decide) (by decide) (by decide)

lemma wasBookNeverUsedAtTime_eq_pred (book : Book) (allLogs : List AuditLog)
    (d : Int) :
    wasBookNeverUsedAtTime book allLogs d =
      neverUsedSnapshotPred
        (reconField (some book.times_read) jsParseInt "times_read"
          (allLogs.filter (fun log => d < log.timestamp)))
        (reconField book.current_possessor id "current_possessor"
          (allLogs.filter (fun log => d < log.timestamp)))
        (reconField book.owner id "owner"
          (allLogs.filter (fun log => d < log.timestamp))) := rfl

lemma isBookNeverUsed_eq_pred (books : List Book) (bookId : String) :
    isBookNeverUsed books bookId =
      match getBookById books bookId with
      | none => false
      | some b => neverUsedNowPred (some b.times_read)
          b.current_possessor b.owner := by
  unfold isBookNeverUsed neverUsedNowPred jsEq
  cases getBookById books bookId <;> rfl

/-- A book whose stored `times_read` is the negative value `-1`. -/
def negBook : Book :=
  { id := "b", title := "Book", state := "In library", owner := "x",
    current_possessor := "x", times_read := -1, date_added := 0 }

/-- An audit event whose `old_value` decodes to `-1`. -/
def negLog : AuditLog :=
  { id := 1, changed_field := "times_read", old_value := "-1",
    new_value := "0", changed_by := "system", timestamp := 100,
    book_id := some "b", book_title := some "Book" }

/-- C2 is false as stated: at the value tuple `(readCount = -1, holder = "x",
owner = "x")` the current-value evaluation is false while the snapshot
evaluation is true — exhibited both on the pure value-tuple rules and
end-to-end on `isBookNeverUsed` (a stored book holding that tuple) and
`wasBookNeverUsedAtTime` (the tuple reached by reconstruction). -/
theorem predicate_equivalence_counterexample :
    neverUsedNowPred (some (-1)) "x" "x" = false ∧
    neverUsedSnapshotPred (some (-1)) "x" "x" = true ∧
    neverUsedNowPred (some (-1)) "x" "x" ≠
      neverUsedSnapshotPred (some (-1)) "x" "x" ∧
    isBookNeverUsed [negBook] "b" = false ∧
    reconAt [negLog] "b" 50 (some (0 : Int)) jsParseInt "times_read" =
      some (-1) ∧
    wasBookNeverUsedAtTime negBook [negLog] 50 = true := by
  decide

/-- C2 (amended): the current-value rule and the snapshot rule agree at every
value tuple whose readCount is a genuine non-negative integer — in particular
on all well-formed data — and there both equal `readCount == 0 AND holder ==
owner`; they can differ only at negative or `NaN` readCount, where the
snapshot side tests `not (readCount > 0)` instead of `readCount == 0`. -/
theorem predicate_equivalence_nonneg (r : Int) (hr : 0 ≤ r) (h o : String) :
    neverUsedNowPred (some r) h o = neverUsedSnapshotPred (some r) h o ∧
    neverUsedNowPred (some r) h o = ((r == 0) && (h == o)) := by
  rcases eq_or_lt_of_le hr with h0 | h0
  · rw [← h0]
    simp [neverUsedNowPred, neverUsedSnapshotPred, jsEq, jsGt]
  · have h1 : (r == 0) = false := beq_eq_false_iff_ne.mpr (ne_of_gt h0)
    simp [neverUsedNowPred, neverUsedSnapshotPred, jsEq, jsGt, h1, h0]

/-- Witness for the amended C2 at the tuple `(0, "x", "x")`. -/
theorem predicate_equivalence_nonneg_witness :
    neverUsedNowPred (some 0) "x" "x" =
      neverUsedSnapshotPred (some 0) "x" "x" ∧
    neverUsedNowPred (some 0) "x" "x" = (((0 : Int) == 0) && ("x" == "x")) :=
  predicate_equivalence_nonneg 0 (by decide) "x" "x"

/-- An audit event whose `old_value` does not decode to an integer. -/
def badValueLog : AuditLog :=
  { id := 1, changed_field := "times_read", old_value := "oops",
    new_value := "1", changed_by := "system", timestamp := 100,
    book_id := some "b", book_title := some "Book" }

/-- C5 is false as stated: when the consulted `oldValue` fails to decode the
reconstructed readCount is `NaN` (`none`), not the claimed safe default 0. -/
theorem decode_fallback_counterexample :
    jsParseInt badValueLog.old_value = none ∧
    reconAt [badValueLog] "b" 50 (some (7 : Int)) jsParseInt "times_read" =
      none ∧
    (none : JSNum) ≠ some 0 := by
  decide

/-- C5 (amended): when the selected earliest-after `times_read` event's
`oldValue` fails to decode, the reconstructed readCount is `NaN` rather than
0; the computation still completes, and the book is classified exactly as it
would be with readCount 0 — the classification reduces to the
possessor/owner comparison, because both `NaN > 0` and `0 > 0` are false. -/
theorem decode_failure_classified_as_zero (book : Book)
    (allLogs : List AuditLog) (d : Int) (e : AuditLog)
    (hsel : (((allLogs.filter (fun log => d < log.timestamp)).filter
        (fun log => log.changed_field == "times_read")).reverse).head? =
      some e)
    (hdec : jsParseInt e.old_value = none) :
    reconField (some book.times_read) jsParseInt "times_read"
        (allLogs.filter (fun log => d < log.timestamp)) = none ∧
    wasBookNeverUsedAtTime book allLogs d =
      neverUsedSnapshotPred (some 0)
        (reconField book.current_possessor id "current_possessor"
          (allLogs.filter (fun log => d < log.timestamp)))
        (reconField book.owner id "owner"
          (allLogs.filter (fun log => d < log.timestamp))) := by
  have hrec : reconField (some book.times_read) jsParseInt "times_read"
      (allLogs.filter (fun log => d < log.timestamp)) = none := by
    unfold reconField
    rw [hsel]
    exact hdec
  refine ⟨hrec, ?_⟩
  rw [wasBookNeverUsedAtTime_eq_pred, hrec]
  rfl

/-- Witness for the amended C5 at a concrete non-decoding event. -/
theorem decode_failure_classified_as_zero_witness :
    reconField (some ((7 : Int))) jsParseInt "times_read"
        ([badValueLog].filter (fun log => (50 : Int) < log.timestamp)) =
      none ∧
    wasBookNeverUsedAtTime
        { id := "b", title := "Book", state := "In library", owner := "y",
          current_possessor := "y", times_read := 7, date_added := 0 }
        [badValueLog] 50 =
      neverUsedSnapshotPred (some 0)
        (reconField "y" id "current_possessor"
          ([badValueLog].filter (fun log => (50 : Int) < log.timestamp)))
        (reconField "y" id "owner"
          ([badValueLog].filter (fun log => (50 : Int) < log.timestamp))) :=
  decode_failure_classified_as_zero
    { id := "b", title := "Book", state := "In library", owner := "y",
      current_possessor := "y", times_read := 7, date_added := 0 }
    [badValueLog] 50 badValueLog (by decide) (by decide)

lemma snapshotFor_ok_inv {fetch : AuditFetch} {books : List Book} {now : Int}
    {i : Nat} {s : WeeklySnapshot} (h : snapshotFor fetch books now i = .ok s) :
    ∃ flags,
      exceptMapM (fun b => wasBookNeverUsedAtTimeE fetch b (weekEndDate now i))
          (books.filter (fun b => b.date_added ≤ weekEndDate now i)) =
        .ok flags ∧
      s = { weekLabel := formatWeekLabel (weekEndDate now i)
            weekEndDate := weekEndDate now i
            neverUsedCount := (flags.filter (fun f => f)).length
            totalBooks :=
              (books.filter (fun b => b.date_added ≤ weekEndDate now i)).length
            percentage := pctOf (flags.filter (fun f => f)).length
              (books.filter
                (fun b => b.date_added ≤ weekEndDate now i)).length } := by
  simp only [snapshotFor] at h
  split at h
  · exact absurd h (by simp)
  · rename_i flags hm
    exact ⟨flags, hm, (Except.ok.inj h).symm⟩

lemma generateWeeklySnapshots_ok_mem {fetch : AuditFetch} {books : List Book}
    {weeks : Nat} {now : Int} {snaps : List WeeklySnapshot}
    (h : generateWeeklySnapshots fetch books weeks now = .ok snaps) :
    ∀ s ∈ snaps, ∃ i, i < weeks ∧ snapshotFor fetch books now i = .ok s := by
  unfold generateWeeklySnapshots at h
  split at h
  · exact absurd h (by simp)
  · rename_i l hm
    have hs : snaps = l.reverse := (Except.ok.inj h).symm
    intro s hsm
    rw [hs, List.mem_reverse] at hsm
    obtain ⟨i, hi, hfi⟩ := exceptMapM_ok_mem hm s hsm
    exact ⟨i, List.mem_range.mp hi, hfi⟩

lemma generateWeeklySnapshots_ok_length {fetch : AuditFetch}
    {books : List Book} {weeks : Nat} {now : Int}
    {snaps : List WeeklySnapshot}
    (h : generateWeeklySnapshots fetch books weeks now = .ok snaps) :
    snaps.length = weeks := by
  unfold generateWeeklySnapshots at h
  split at h
  · exact absurd h (by simp)
  · rename_i l hm
    have hs : snaps = l.reverse := (Except.ok.inj h).symm
    rw [hs, List.length_reverse, exceptMapM_length hm, List.length_range]

lemma analyticsGET_ok_inv {fetch : AuditFetch} {allBooks : List Book}
    {uf : Option String} {now : Int} {r : NeverUsedResponse}
    (h : analyticsNeverUsedGET fetch allBooks uf now = .ok r) :
    ∃ weekly,
      generateWeeklySnapshots fetch (filterBooksByUser allBooks uf) 12 now =
        .ok weekly ∧
      r = { current :=
              { count := (((filterBooksByUser allBooks uf).map
                    (fun b => isBookNeverUsed allBooks b.id)).filter
                  (fun f => f)).length
                total := (filterBooksByUser allBooks uf).length
                percentage := pctOf
                  (((filterBooksByUser allBooks uf).map
                      (fun b => isBookNeverUsed allBooks b.id)).filter
                    (fun f => f)).length
                  (filterBooksByUser allBooks uf).length }
            weekly := weekly } := by
  simp only [analyticsNeverUsedGET] at h
  split at h
  · exact absurd h (by simp)
  · rename_i weekly hm
    exact ⟨weekly, hm, (Except.ok.inj h).symm⟩

/-- A fetch that rejects every request, as a store outage or a malformed
per-book read would. -/
def failFetch : AuditFetch := fun _ => .error "store failure"

/-- A book present since the epoch, eligible at every recent checkpoint. -/
def plainBook : Book :=
  { id := "b", title := "Book", state := "In library", owner := "x",
    current_possessor := "x", times_read := 0, date_added := 0 }

/-- C3 is false as stated: with one book whose per-book audit fetch rejects,
the whole trend computation rejects — the aggregation does not complete with
the item excluded — and the `GET` handler maps the rejection to its error
response instead of emitting trend points. -/
theorem trend_fault_isolation_counterexample :
    generateWeeklySnapshots failFetch [plainBook] 12 0 =
      .error "store failure" ∧
    analyticsNeverUsedGET failFetch [plainBook] none 0 =
      .error "store failure" := by
  constructor <;> rfl

/-- C3 (amended): a single item's reconstruction failure is not isolated: if
any book eligible at any generated checkpoint has a rejecting audit fetch,
`generateWeeklySnapshots` cannot return a result at all — the error
propagates out of the `Promise.all`, and the `GET` caller turns it into an
error response. -/
theorem trend_failure_not_isolated (fetch : AuditFetch) (books : List Book)
    (weeks : Nat) (now : Int) (i : Nat) (b : Book) (e : String)
    (hi : i < weeks) (hb : b ∈ books)
    (helig : b.date_added ≤ weekEndDate now i)
    (hfail : fetch b.id = .error e) :
    ∀ snaps, generateWeeklySnapshots fetch books weeks now ≠ .ok snaps := by
  intro snaps h
  unfold generateWeeklySnapshots at h
  split at h
  · exact absurd h (by simp)
  · rename_i l hm
    obtain ⟨s, hs⟩ :=
      exceptMapM_ok_forall hm i (List.mem_range.mpr hi)
    obtain ⟨flags, hflags, _⟩ := snapshotFor_ok_inv hs
    obtain ⟨fl, hfl⟩ := exceptMapM_ok_forall hflags b
      (List.mem_filter.mpr ⟨hb, by simp [helig]⟩)
    unfold wasBookNeverUsedAtTimeE at hfl
    rw [hfail] at hfl
    exact absurd hfl (by simp)

/-- Witness for the amended C3: the concrete failing configuration can not
produce the empty snapshot list (nor any other). -/
theorem trend_failure_not_isolated_witness :
    generateWeeklySnapshots failFetch [plainBook] 12 0 ≠ .ok [] :=
  trend_failure_not_isolated failFetch [plainBook] 12 0 0 plainBook
    "store failure" (by decide) (List.mem_singleton_self plainBook)
    (by decide) rfl []

lemma length_filter_id_map {β : Type} (g : β → Bool) (l : List β) :
    ((l.map g).filter (fun f => f)).length = (l.filter g).length := by
  rw [List.filter_map, List.length_map]
  congr 1

lemma snapshotFor_okFetch (table : List AuditLog) (books : List Book)
    (now : Int) (i : Nat) :
    snapshotFor (okFetch table) books now i = .ok
      { weekLabel := formatWeekLabel (weekEndDate now i)
        weekEndDate := weekEndDate now i
        neverUsedCount :=
          ((books.filter (fun b => b.date_added ≤ weekEndDate now i)).filter
            (fun b => wasBookNeverUsedAtTime b
              (getAuditLogs table none (some b.id) (some 1000))
              (weekEndDate now i))).length
        totalBooks :=
          (books.filter (fun b => b.date_added ≤ weekEndDate now i)).length
        percentage := pctOf
          ((books.filter (fun b => b.date_added ≤ weekEndDate now i)).filter
            (fun b => wasBookNeverUsedAtTime b
              (getAuditLogs table none (some b.id) (some 1000))
              (weekEndDate now i))).length
          (books.filter
            (fun b => b.date_added ≤ weekEndDate now i)).length } := by
  have hfun : (fun b => wasBookNeverUsedAtTimeE (okFetch table) b
      (weekEndDate now i)) =
      fun b => Except.ok (wasBookNeverUsedAtTime b
        (getAuditLogs table none (some b.id) (some 1000))
        (weekEndDate now i)) := rfl
  simp only [snapshotFor, hfun, exceptMapM_ok_map]
  rw [length_filter_id_map]

/-- C7: Eligible-set exclusion.  In every produced trend point, `totalBooks`
is exactly the number of books with `date_added` at or before the
checkpoint, and `neverUsedCount` counts matches among those books only — so
a book added after the checkpoint contributes to neither count, and every
book added at or before it contributes to `totalBooks`. -/
theorem eligible_set_exclusion (table : List AuditLog) (books : List Book)
    (weeks : Nat) (now : Int) (snaps : List WeeklySnapshot)
    (h : generateWeeklySnapshots (okFetch table) books weeks now = .ok snaps) :
    ∀ s ∈ snaps,
      s.totalBooks =
        (books.filter (fun b => b.date_added ≤ s.weekEndDate)).length ∧
      s.neverUsedCount =
        ((books.filter (fun b => b.date_added ≤ s.weekEndDate)).filter
          (fun b => wasBookNeverUsedAtTime b
            (getAuditLogs table none (some b.id) (some 1000))
            s.weekEndDate)).length := by
  intro s hsm
  obtain ⟨i, _, hsi⟩ := generateWeeklySnapshots_ok_mem h s hsm
  rw [snapshotFor_okFetch] at hsi
  have hs := Except.ok.inj hsi
  rw [← hs]
  exact ⟨rfl, rfl⟩

/-- The single trend point produced for one never-used book over one week
starting from the epoch. -/
def weekOneSnapshot : WeeklySnapshot :=
  { weekLabel := "Jan 1", weekEndDate := 86399999, neverUsedCount := 1,
    totalBooks := 1, percentage := pctOf 1 1 }

/-- Witness for C7 on a one-book, one-week configuration. -/
theorem eligible_set_exclusion_witness :
    weekOneSnapshot.totalBooks =
      ([plainBook].filter
        (fun b => b.date_added ≤ weekOneSnapshot.weekEndDate)).length ∧
    weekOneSnapshot.neverUsedCount =
      (([plainBook].filter
          (fun b => b.date_added ≤ weekOneSnapshot.weekEndDate)).filter
        (fun b => wasBookNeverUsedAtTime b
          (getAuditLogs [] none (some b.id) (some 1000))
          weekOneSnapshot.weekEndDate)).length :=
  eligible_set_exclusion [] [plainBook] 1 0 [weekOneSnapshot] (by rfl)
    weekOneSnapshot (List.mem_singleton_self _)

/-- C8: Percentage bounds.  Every produced trend point satisfies
`0 <= percentage <= 100`, `percentage = 0` when `totalBooks = 0`, and
`percentage = round(neverUsedCount / totalBooks * 100)` when
`totalBooks > 0`; the current aggregate of the `GET` handler satisfies the
same bounds and formula. -/
theorem percentage_bounds :
    (∀ (fetch : AuditFetch) (books : List Book) (weeks : Nat) (now : Int)
        (snaps : List WeeklySnapshot),
      generateWeeklySnapshots fetch books weeks now = .ok snaps →
      ∀ s ∈ snaps,
        0 ≤ s.percentage ∧ s.percentage ≤ 100 ∧
        (s.totalBooks = 0 → s.percentage = 0) ∧
        (0 < s.totalBooks → s.percentage =
          round ((s.neverUsedCount : ℚ) / (s.totalBooks : ℚ) * 100))) ∧
    (∀ (fetch : AuditFetch) (allBooks : List Book) (uf : Option String)
        (now : Int) (r : NeverUsedResponse),
      analyticsNeverUsedGET fetch allBooks uf now = .ok r →
      0 ≤ r.current.percentage ∧ r.current.percentage ≤ 100 ∧
      (r.current.total = 0 → r.current.percentage = 0) ∧
      (0 < r.current.total → r.current.percentage =
        round ((r.current.count : ℚ) / (r.current.total : ℚ) * 100))) := by
  constructor
  · intro fetch books weeks now snaps h s hsm
    obtain ⟨i, _, hsi⟩ := generateWeeklySnapshots_ok_mem h s hsm
    obtain ⟨flags, hflags, hs⟩ := snapshotFor_ok_inv hsi
    subst hs
    have hle : (flags.filter (fun f => f)).length ≤
        (books.filter (fun b => b.date_added ≤ weekEndDate now i)).length :=
      le_trans (List.length_filter_le _ flags)
        (le_of_eq (exceptMapM_length hflags))
    refine ⟨pctOf_nonneg _ _, pctOf_le_100 hle, ?_, ?_⟩
    · intro h0
      show pctOf _ _ = 0
      rw [show (books.filter
          (fun b => b.date_added ≤ weekEndDate now i)).length = 0 from h0]
      exact pctOf_zero_total _
    · intro hpos
      exact pctOf_pos_eq hpos
  · intro fetch allBooks uf now r h
    obtain ⟨weekly, _, hr⟩ := analyticsGET_ok_inv h
    subst hr
    have hle : (((filterBooksByUser allBooks uf).map
        (fun b => isBookNeverUsed allBooks b.id)).filter
          (fun f => f)).length ≤ (filterBooksByUser allBooks uf).length := by
      refine le_trans (List.length_filter_le _ _) (le_of_eq ?_)
      exact List.length_map _ _
    refine ⟨pctOf_nonneg _ _, pctOf_le_100 hle, ?_, ?_⟩
    · intro h0
      show pctOf _ _ = 0
      rw [show (filterBooksByUser allBooks uf).length = 0 from h0]
      exact pctOf_zero_total _
    · intro hpos
      exact pctOf_pos_eq hpos

/-- Witness for C8 on the one-book, one-week configuration. -/
theorem percentage_bounds_witness :
    0 ≤ weekOneSnapshot.percentage ∧ weekOneSnapshot.percentage ≤ 100 ∧
    (weekOneSnapshot.totalBooks = 0 → weekOneSnapshot.percentage = 0) ∧
    (0 < weekOneSnapshot.totalBooks → weekOneSnapshot.percentage =
      round ((weekOneSnapshot.neverUsedCount : ℚ) /
        (weekOneSnapshot.totalBooks : ℚ) * 100)) :=
  percentage_bounds.1 (okFetch []) [plainBook] 1 0 [weekOneSnapshot]
    (by rfl) weekOneSnapshot (List.mem_singleton_self _)

/-- The trend point emitted for a checkpoint with an empty eligible set. -/
def emptyWeekSnapshot (now : Int) (i : Nat) : WeeklySnapshot :=
  { weekLabel := formatWeekLabel (weekEndDate now i)
    weekEndDate := weekEndDate now i
    neverUsedCount := 0
    totalBooks := 0
    percentage := 0 }

lemma snapshotFor_nil (fetch : AuditFetch) (now : Int) (i : Nat) :
    snapshotFor fetch [] now i = .ok (emptyWeekSnapshot now i) := rfl

lemma generateWeeklySnapshots_nil (fetch : AuditFetch) (weeks : Nat)
    (now : Int) :
    generateWeeklySnapshots fetch [] weeks now =
      .ok ((List.range weeks).reverse.map (emptyWeekSnapshot now)) := by
  unfold generateWeeklySnapshots
  have hfun : snapshotFor fetch ([] : List Book) now =
      fun i => Except.ok (emptyWeekSnapshot now i) :=
    funext (fun i => snapshotFor_nil fetch now i)
  rw [hfun, exceptMapM_ok_map]
  show Except.ok (((List.range weeks).map (emptyWeekSnapshot now)).reverse) =
    Except.ok ((List.range weeks).reverse.map (emptyWeekSnapshot now))
  rw [List.map_reverse]

/-- C9: The handler always emits exactly 12 weekly points: every successful
response carries a 12-element series (the week count is the literal 12 in
the handler, not caller input), and an empty — or fully filtered-out —
catalog still succeeds with 12 points, each with zero books and zero
percentage. -/
theorem trend_always_twelve_points :
    (∀ (fetch : AuditFetch) (allBooks : List Book) (uf : Option String)
        (now : Int) (r : NeverUsedResponse),
      analyticsNeverUsedGET fetch allBooks uf now = .ok r →
      r.weekly.length = 12) ∧
    (∀ (fetch : AuditFetch) (allBooks : List Book) (uf : Option String)
        (now : Int), filterBooksByUser allBooks uf = [] →
      ∃ r, analyticsNeverUsedGET fetch allBooks uf now = .ok r ∧
        r.weekly.length = 12 ∧
        ∀ s ∈ r.weekly, s.totalBooks = 0 ∧ s.neverUsedCount = 0 ∧
          s.percentage = 0) := by
  constructor
  · intro fetch allBooks uf now r h
    obtain ⟨weekly, hw, hr⟩ := analyticsGET_ok_inv h
    rw [hr]
    exact generateWeeklySnapshots_ok_length hw
  · intro fetch allBooks uf now hfilter
    refine ⟨{ current := { count := 0, total := 0, percentage := 0 }
              weekly := (List.range 12).reverse.map (emptyWeekSnapshot now) },
        ?_, ?_, ?_⟩
    · simp only [analyticsNeverUsedGET, hfilter]
      rw [generateWeeklySnapshots_nil]
      rfl
    · simp [List.length_map, List.length_reverse, List.length_range]
    · intro s hs
      simp only [List.mem_map] at hs
      obtain ⟨i, _, hsi⟩ := hs
      rw [← hsi]
      exact ⟨rfl, rfl, rfl⟩

/-- Witness for C9 on the empty catalog. -/
theorem trend_always_twelve_points_witness :
    ∃ r, analyticsNeverUsedGET (okFetch []) [] none 0 = .ok r ∧
      r.weekly.length = 12 ∧
      ∀ s ∈ r.weekly, s.totalBooks = 0 ∧ s.neverUsedCount = 0 ∧
        s.percentage = 0 :=
  trend_always_twelve_points.2 (okFetch []) [] none 0 rfl

lemma fieldAuditLogs_noop (field v : String) (newValue : Option String)
    (bookId bookTitle : String) (h : newValue = none ∨ newValue = some v) :
    fieldAuditLogs field v newValue bookId bookTitle = [] := by
  rcases h with h | h <;> simp [fieldAuditLogs, h]

lemma fieldAuditLogs_field (field oldValue : String)
    (newValue : Option String) (bookId bookTitle : String) :
    ∀ e ∈ fieldAuditLogs field oldValue newValue bookId bookTitle,
      e.changed_field = field := by
  intro e he
  unfold fieldAuditLogs at he
  split at he
  · simp at he
  · split at he
    · simp at he
    · rw [List.mem_singleton] at he
      rw [he]

/-- C6: No-op updates append nothing, and only tracked fields ever produce
audit events: when every tracked field present in the update carries a value
string-equal to the book's current value, the audit loop of `updateBook`
appends zero events; and every event it can append is for one of the four
tracked fields, so untracked fields (such as `title`) never produce
events. -/
theorem noop_update_appends_nothing :
    (∀ (book : Book) (u : BookUpdate),
      (u.state = none ∨ u.state = some book.state) →
      (u.owner = none ∨ u.owner = some book.owner) →
      (u.current_possessor = none ∨
        u.current_possessor = some book.current_possessor) →
      (u.times_read = none ∨
        u.times_read.map toString = some (toString book.times_read)) →
      updateBookAuditLogs book u = []) ∧
    (∀ (book : Book) (u : BookUpdate) (e : NewAuditLog),
      e ∈ updateBookAuditLogs book u →
      e.changed_field ∈
        (["state", "owner", "current_possessor", "times_read"] :
          List String)) := by
  constructor
  · intro book u h1 h2 h3 h4
    have h4m : u.times_read.map toString = none ∨
        u.times_read.map toString = some (toString book.times_read) := by
      rcases h4 with h | h
      · exact Or.inl (by rw [h]; rfl)
      · exact Or.inr h
    simp only [updateBookAuditLogs]
    rw [fieldAuditLogs_noop _ _ _ _ _ h1, fieldAuditLogs_noop _ _ _ _ _ h2,
      fieldAuditLogs_noop _ _ _ _ _ h3, fieldAuditLogs_noop _ _ _ _ _ h4m]
    rfl
  · intro book u e he
    simp only [updateBookAuditLogs] at he
    rcases List.mem_append.mp he with he | he
    · rcases List.mem_append.mp he with he | he
      · rcases List.mem_append.mp he with he | he
        · rw [fieldAuditLogs_field _ _ _ _ _ e he]; simp
        · rw [fieldAuditLogs_field _ _ _ _ _ e he]; simp
      · rw [fieldAuditLogs_field _ _ _ _ _ e he]; simp
    · rw [fieldAuditLogs_field _ _ _ _ _ e he]; simp

/-- Witness for C6: a no-op update (title renamed, tracked fields repeated
verbatim) appends nothing, and a real `state` change produces an event whose
field is tracked. -/
theorem noop_update_appends_nothing_witness :
    updateBookAuditLogs plainBook
      { title := some "Renamed", state := some "In library", owner := none,
        current_possessor := none, times_read := some 0 } = [] ∧
    ({ changed_field := "state", old_value := "In library",
       new_value := "Lost", changed_by := "system", book_id := some "b",
       book_title := some "Book" } : NewAuditLog).changed_field ∈
      (["state", "owner", "current_possessor", "times_read"] :
        List String) :=
  ⟨noop_update_appends_nothing.1 plainBook
      { title := some "Renamed", state := some "In library", owner := none,
        current_possessor := none, times_read := some 0 }
      (by decide) (by decide) (by decide) (by decide),
    noop_update_appends_nothing.2 plainBook
      { title := none, state := some "Lost", owner := none,
        current_possessor := none, times_read := none }
      { changed_field := "state", old_value := "In library",
        new_value := "Lost", changed_by := "system", book_id := some "b",
        book_title := some "Book" }
      (by decide)⟩

/-- C10: a `bookId` that resolves to no stored book makes `isBookNeverUsed`
return `false` — the vanished item silently counts as "used" — rather than
surfacing a not-found error. -/
theorem missing_book_counts_as_used (books : List Book) (bookId : String)
    (h : ∀ b ∈ books, b.id ≠ bookId) :
    getBookById books bookId = none ∧
    isBookNeverUsed books bookId = false := by
  have hg : getBookById books bookId = none := by
    unfold getBookById
    rw [List.find?_eq_none]
    intro b hb
    simp [h b hb]
  refine ⟨hg, ?_⟩
  unfold isBookNeverUsed
  rw [hg]

/-- Witness for C10 at a concrete missing id. -/
theorem missing_book_counts_as_used_witness :
    getBookById [plainBook] "missing" = none ∧
    isBookNeverUsed [plainBook] "missing" = false :=
  missing_book_counts_as_used [plainBook] "missing" (by decide)
